import Mathlib

/-
Verification development for the `IndexTree.svelte` component of the
poe-revelation repository: a browser over a bundle index that decodes
fixed-stride binary table files (".dat64") into name-keyed row records.

The logic owned by the component (directory listing and filtering,
schema-name derivation, placeholder naming of headers, row
materialization, upward navigation) is embedded faithfully below.  The
external collaborators it calls (the `readDatFile` and `readColumn`
functions of `pathofexile-dat`, the dat-viewer header matcher
`fromSerializedHeaders`, the bundle index and the schema database) are
not part of the sources of this repository; where a claim needs them
they are modelled from the specification, as marked in their doc
comments.
-/

namespace PoeRevelation

/-- A decoded cell value.  The column decoder is modelled as returning the
raw bytes of the field (the claims under scrutiny never depend on the
scalar interpretation of a cell, only on which value lands under which
row key). -/
abbrev Value := List Nat

/-- A row record: a JavaScript object with string keys, modelled as an
insertion-ordered association list with unique keys (as JS objects are). -/
abbrev Row := List (String × Value)

/-- Modelled from the spec: a column descriptor — optional `name` (absent
or empty means unnamed), byte `offset` within a row, and the byte `width`
of its type (`width(type)` in the spec).  The concrete `Header` type lives
in the external `$lib/dat-viewer/headers` module, not in the sources of
this repository. -/
structure Header where
  name : Option String
  offset : Nat
  width : Nat
deriving DecidableEq, Repr

/-- Modelled from the spec: the parsed dat file — preamble-declared
`rowCount`, the row stride `rowLength`, and the fixed row-section bytes.
The concrete `DatFile` comes from the external `pathofexile-dat` package
(`readDatFile`). -/
structure DatFile where
  rowCount : Nat
  rowLength : Nat
  dataFixed : List Nat
deriving DecidableEq, Repr

/-- Directory listing as returned by the bundle index:
`{ files, dirs }`. -/
structure DirContents where
  files : List String
  dirs : List String
deriving DecidableEq, Repr

/-- The component state touched by the functions under scrutiny:
`currentPath`, `dirContents`, `fileContent`, `headers`, `datFile`,
`rows`, `loading`. -/
structure AppState where
  currentPath : String
  dirContents : DirContents
  fileContent : Option (List Nat)
  headers : List Header
  datFile : Option DatFile
  rows : List Row
  loading : Bool
deriving DecidableEq, Repr

/-- The external collaborators used by `loadFileContent`, passed as
capabilities: the `loadFileContent` method of the bundle index (bytes by
path), the external `readDatFile` function, and the `findByName` method
of the schema database. -/
structure Env where
  loadBytes : String → List Nat
  readDat : List Nat → DatFile
  findByName : String → List Header

/-! ## JavaScript string primitives used by the component -/

/-- JavaScript truthiness of an optional string: `null`/`undefined` and
the empty string are falsy, every other string is truthy. -/
def truthyStr : Option String → Bool
  | none => false
  | some s => !s.data.isEmpty

/-- The name field of a header as a plain string (empty when absent). -/
def nameStr (h : Header) : String := h.name.getD ""

/-- Whether the name of a header is truthy (so `extractRows` will key a
cell by it). -/
def truthyH (h : Header) : Bool := truthyStr h.name

/-- JavaScript `String.prototype.replace` with a string pattern: replaces
only the first occurrence of `pat`, searching from the left, anywhere in
the string (not anchored). -/
def replaceFirstL (pat rep : List Char) : List Char → List Char
  | [] => []
  | c :: rest =>
    if pat.isPrefixOf (c :: rest) then rep ++ (c :: rest).drop pat.length
    else c :: replaceFirstL pat rep rest

/-- The string-level wrapper of `replaceFirstL`, i.e. `s.replace(pat, rep)`
with a string-valued pattern. -/
def jsReplace (s pat rep : String) : String :=
  String.mk (replaceFirstL pat.data rep.data s.data)

/-- JavaScript `String.prototype.endsWith`. -/
def jsEndsWith (s suffix : String) : Bool :=
  suffix.data.isSuffixOf s.data

/-- JavaScript `String.prototype.split` with a single-character
separator. -/
def splitCh (sep : Char) : List Char → List (List Char)
  | [] => [[]]
  | c :: rest =>
    if c = sep then [] :: splitCh sep rest
    else
      match splitCh sep rest with
      | [] => [[c]]
      | g :: gs => (c :: g) :: gs

/-- JavaScript `Array.prototype.join` with a single-character
separator. -/
def joinCh (sep : Char) : List (List Char) → List Char
  | [] => []
  | [x] => x
  | x :: xs => x ++ sep :: joinCh sep xs

/-! ## The functions of the component -/

/-- Schema-name derivation in `loadFileContent` (line 78 of the source):
`filePath.replace(..)` twice, removing the first occurrence of `data/`
and then the first occurrence of `.dat64`. -/
def schemaNameOf (filePath : String) : String :=
  jsReplace (jsReplace filePath "data/" "") ".dat64" ""

/-- The wording of the spec for the schema name, for comparison: "strip
known directory prefix and known file extension", i.e. remove `data/`
only when it is at the front and `.dat64` only when it is at the end. -/
def specSchemaName (filePath : String) : String :=
  let l := filePath.data
  let pre := "data/".data
  let l1 := if pre.isPrefixOf l then l.drop pre.length else l
  let ext := ".dat64".data
  let l2 := if ext.isSuffixOf l1 then l1.take (l1.length - ext.length) else l1
  String.mk l2

/-- Modelled from the spec: `fromSerializedHeaders` (external
`$lib/dat-viewer/headers`) validates the candidate header set against
the observed stride — every header must satisfy
`offset + width(type) ≤ rowLength`; if any header fails the check the
result is a schema mismatch (`none`), otherwise the headers are returned
validated. -/
def fromSerializedHeaders (hs : List Header) (d : DatFile) : Option (List Header) :=
  if hs.all (fun h => h.offset + h.width ≤ d.rowLength) then some hs else none

/-- Modelled from the spec: `readColumn` (external `pathofexile-dat`)
extracts one typed column across all rows — for each row index it reads
`width(type)` bytes at `header.offset` within the stride-sized byte
slice of that row.  Values are kept as the raw bytes read. -/
def readColumn (h : Header) (d : DatFile) : List Value :=
  (List.range d.rowCount).map
    (fun i => ((d.dataFixed.drop (i * d.rowLength)).take d.rowLength |>.drop h.offset).take h.width)

/-- The cell value `columns[index][i]` used by `extractRows`: the `i`-th
entry of the column read for header `h` (the column of a header depends
only on the header and the dat file, not on the position of the header
in the list). -/
def colVal (h : Header) (d : DatFile) (i : Nat) : Value :=
  (readColumn h d).getD i []

/-- JavaScript object assignment `row[k] = v`: updates the value in place
when the key is present (keeping its insertion position), appends a new
entry otherwise. -/
def objSet : Row → String → Value → Row
  | [], k, v => [(k, v)]
  | (k', v') :: rest, k, v =>
    if k' = k then (k', v) :: rest else (k', v') :: objSet rest k v

/-- JavaScript object lookup `row[k]`. -/
def rowGet : Row → String → Option Value
  | [], _ => none
  | (k', v) :: rest, k => if k' = k then some v else rowGet rest k

/-- The inner loop of `extractRows` (source lines 126–132): starting from
an empty object, for each header in order assign
`row[header.name] = columns[index][i]`, skipping headers whose name is
falsy. -/
def buildRow (d : DatFile) (hs : List Header) (i : Nat) : Row :=
  hs.foldl
    (fun row h => if truthyH h then objSet row (nameStr h) (colVal h d i) else row)
    []

/-- Row extraction, `extractRows` in the source (lines 118–138): decode
one column per header, then for `i = 0 .. rowCount - 1` assemble the
name-keyed row records. -/
def extractRows (d : DatFile) (hs : List Header) : List Row :=
  (List.range d.rowCount).map (buildRow d hs)

/-- The placeholder-naming map of `loadFileContent` (source lines 95–98):
`name: header.name ? header.name : "Unnamed " + index` where `index` is
the position of the header in the full header list.  The helper
`assignNamesFrom k` renames a tail whose first element sits at position
`k`. -/
def assignNamesFrom (k : Nat) : List Header → List Header
  | [] => []
  | h :: t =>
    { h with name := some (if truthyH h then nameStr h else "Unnamed " ++ toString k) }
      :: assignNamesFrom (k + 1) t

/-- Placeholder naming applied to a whole header list. -/
def assignNames (hs : List Header) : List Header :=
  assignNamesFrom 0 hs

/-- The part of `loadFileContent` (source lines 73–115) that runs after
its `await` points: record the loaded bytes and parsed dat file, look up
the schema by derived name, validate headers; on success install the
placeholder-named headers and the extracted rows and clear `loading`; on
failure only a console warning is emitted — no state is assigned beyond
the bytes and the parsed file, so `rows`, `headers` and `loading` keep
their previous values. -/
def loadFinish (env : Env) (s : AppState) (filePath : String) : AppState :=
  let content := env.loadBytes filePath
  let d := env.readDat content
  match fromSerializedHeaders (env.findByName (schemaNameOf filePath)) d with
  | some hr =>
    let hs := assignNames hr
    { s with fileContent := some content, datFile := some d,
             headers := hs, rows := extractRows d hs, loading := false }
  | none =>
    { s with fileContent := some content, datFile := some d }

/-- The whole of `loadFileContent` run to completion with no
interleaving: set `loading = true`, then perform the rest. -/
def loadFileContent (env : Env) (s : AppState) (filePath : String) : AppState :=
  loadFinish env { s with loading := true } filePath

/-- Directory loading, `loadDirContents` in the source (lines 63–70):
set the current path, fetch
the listing (empty on a missing directory, as `|| {files: [], dirs: []}`
does), keep only files ending in `.dat64`, pass directories through. -/
def loadDirContents (getDirContent : String → Option DirContents) (s : AppState)
    (dirPath : String) : AppState :=
  let contents := (getDirContent dirPath).getD ⟨[], []⟩
  { s with
    currentPath := dirPath,
    dirContents :=
      ⟨contents.files.filter (fun f => jsEndsWith f ".dat64"), contents.dirs⟩ }

/-- Upward navigation, `goUp` in the source (lines 141–147): when the
current path is truthy
(non-empty), split it on `/`, drop the last segment, rejoin, and load
that directory; otherwise do nothing. -/
def goUp (getDirContent : String → Option DirContents) (s : AppState) : AppState :=
  if s.currentPath.data.isEmpty then s
  else
    let parts := splitCh '/' s.currentPath.data
    loadDirContents getDirContent s (String.mk (joinCh '/' parts.dropLast))

/-! ## Interleaving model for overlapping `loadFileContent` requests

`loadFileContent` is an `async` function fired from a click handler with
no guard against overlapping invocations.  In the JavaScript event loop
its body runs in two phases: the synchronous prefix (`loading = true`)
at invocation, and the remainder after its awaited loads resolve.  An
execution is a sequence of such phase events; `runEvents` folds them over
the component state. -/

/-- One phase of an in-flight `loadFileContent(path)` call: `start path`
is the synchronous prefix, `finish path` the post-await remainder. -/
inductive Event where
  | start : String → Event
  | finish : String → Event
deriving DecidableEq, Repr

/-- Apply one event to the component state. -/
def applyEvent (env : Env) (s : AppState) : Event → AppState
  | .start _ => { s with loading := true }
  | .finish p => loadFinish env s p

/-- Run an interleaved execution. -/
def runEvents (env : Env) (s : AppState) (es : List Event) : AppState :=
  es.foldl (applyEvent env) s

/-! ## Specification helpers

Two small combinators used to state what the row-assembly loop computes:
the last element of a list satisfying a predicate (the header whose
assignment to a shared key survives), and left-to-right key
deduplication (the insertion-ordered key set of a JS object built by
repeated assignment). -/

/-- The last element of the list satisfying `p`, if any. -/
def findLast (p : α → Bool) : List α → Option α
  | [] => none
  | x :: xs =>
    match findLast p xs with
    | some y => some y
    | none => if p x then some x else none

/-- Append each key of `ns` to `ks` unless already present: the key list
of a JS object after assigning the keys `ns` in order to an object whose
keys are `ks`. -/
def dedupInto (ks : List String) : List String → List String
  | [] => ks
  | n :: ns => if n ∈ ks then dedupInto ks ns else dedupInto (ks ++ [n]) ns

/-! ## Concrete instances used by the counterexamples and witnesses -/

/-- A one-row table with stride 2 and row bytes `[5, 7]`. -/
def oneRowD : DatFile := ⟨1, 2, [5, 7]⟩

/-- Two headers that both fit stride 2 but share the declared name
`X`. -/
def clashHs : List Header := [⟨some "X", 0, 1⟩, ⟨some "X", 1, 1⟩]

/-- A two-row table with stride 2. -/
def twoRowD : DatFile := ⟨2, 2, [1, 2, 3, 4]⟩

/-- A named header followed by an unnamed one, both fitting stride 2. -/
def namedUnnamedHs : List Header := [⟨some "A", 0, 1⟩, ⟨none, 1, 1⟩]

/-- A header set with one named and exactly two unnamed headers. -/
def twoUnnamedHs : List Header := [⟨some "A", 0, 1⟩, ⟨none, 0, 1⟩, ⟨none, 1, 1⟩]

/-- An unnamed header and a named one, in that order. -/
def unnamedFirstHs : List Header := [⟨none, 0, 1⟩, ⟨some "B", 1, 1⟩]

/-- The same two headers in the opposite order. -/
def unnamedLastHs : List Header := [⟨some "B", 1, 1⟩, ⟨none, 0, 1⟩]

/-- Two distinctly named headers. -/
def abHs : List Header := [⟨some "A", 0, 1⟩, ⟨some "B", 1, 1⟩]

/-- The two distinctly named headers in the opposite order. -/
def baHs : List Header := [⟨some "B", 1, 1⟩, ⟨some "A", 0, 1⟩]

/-- An environment whose schema database returns a header reaching past
the stride of every file it parses (offset 8 with width 4 against stride
8): header matching always fails. -/
def mismatchEnv : Env :=
  { loadBytes := fun _ => [1, 2, 3, 4, 5, 6, 7, 8],
    readDat := fun bs => ⟨1, 8, bs⟩,
    findByName := fun _ => [⟨some "B", 8, 4⟩] }

/-- A state holding the rows and headers of a previously decoded file. -/
def prevState : AppState :=
  { currentPath := "data",
    dirContents := ⟨[], []⟩,
    fileContent := none,
    headers := [⟨some "A", 0, 4⟩],
    datFile := none,
    rows := [[("A", [9])]],
    loading := false }

/-- An environment in which the files `data/a.dat64` and `data/b.dat64`
hold different bytes and decode, under the same single-header schema, to
different rows. -/
def racyEnv : Env :=
  { loadBytes := fun p => if p = "data/a.dat64" then [1] else [2],
    readDat := fun bs => ⟨1, 1, bs⟩,
    findByName := fun _ => [⟨some "A", 0, 1⟩] }

/-- An environment whose only schema fits every one-byte-stride file. -/
def okEnv : Env :=
  { loadBytes := fun _ => [3],
    readDat := fun bs => ⟨1, 1, bs⟩,
    findByName := fun _ => [⟨some "A", 0, 1⟩] }

/-- The initial component state. -/
def initState : AppState := ⟨"", ⟨[], []⟩, none, [], none, [], false⟩

/-- A toy bundle index with a root and one directory `top` holding two
files (one of them not a dat64 file) and a subdirectory. -/
def toyIndex : String → Option DirContents :=
  fun p =>
    if p = "" then some ⟨[], ["top"]⟩
    else if p = "top" then some ⟨["top/a.dat64", "top/b.txt"], ["top/sub"]⟩
    else none

/-- A state sitting at the top-level directory `top`. -/
def topState : AppState := ⟨"top", ⟨[], []⟩, none, [], none, [], false⟩

/-- A state sitting at the root. -/
def rootState : AppState := ⟨"", ⟨["x"], ["y"]⟩, none, [], none, [], false⟩

/-! ## Lemmas: JS object assignment and lookup -/

lemma rowGet_objSet_self (r : Row) (k : String) (v : Value) :
    rowGet (objSet r k v) k = some v := by
  induction r with
  | nil => simp [objSet, rowGet]
  | cons p rest ih =>
    obtain ⟨k1, v1⟩ := p
    by_cases h : k1 = k
    · simp [objSet, rowGet, h]
    · simp [objSet, rowGet, h, ih]

lemma rowGet_objSet_ne (r : Row) (k k1 : String) (v : Value) (h : k1 ≠ k) :
    rowGet (objSet r k1 v) k = rowGet r k := by
  induction r with
  | nil => simp [objSet, rowGet, h]
  | cons p rest ih =>
    obtain ⟨k2, v2⟩ := p
    by_cases h2 : k2 = k1
    · subst h2
      simp [objSet, rowGet, h]
    · by_cases hk : k2 = k
      · subst hk
        simp [objSet, rowGet, h2, Ne.symm h]
      · simp [objSet, rowGet, h2, hk, ih]

lemma objSet_keys (r : Row) (k : String) (v : Value) :
    (objSet r k v).map Prod.fst =
      if k ∈ r.map Prod.fst then r.map Prod.fst else r.map Prod.fst ++ [k] := by
  induction r with
  | nil => simp [objSet]
  | cons p rest ih =>
    obtain ⟨k1, v1⟩ := p
    by_cases h : k1 = k
    · subst h; simp [objSet]
    · by_cases hm : k ∈ rest.map Prod.fst
      · simp [objSet, h, ih, hm, Ne.symm h]
      · simp [objSet, h, ih, hm, Ne.symm h]

/-- What a left fold of guarded object assignments computes at one key:
the value of the last header with that truthy name, or whatever the
initial object held. -/
lemma rowGet_foldl (d : DatFile) (i : Nat) (hs : List Header) :
    ∀ (r : Row) (k : String),
      rowGet
        (hs.foldl
          (fun row h => if truthyH h then objSet row (nameStr h) (colVal h d i) else row) r) k =
        match findLast (fun h => truthyH h && (nameStr h == k)) hs with
        | some h => some (colVal h d i)
        | none => rowGet r k := by
  induction hs with
  | nil => intro r k; simp [findLast]
  | cons h t ih =>
    intro r k
    simp only [List.foldl_cons, findLast]
    rw [ih]
    cases hfl : findLast (fun h => truthyH h && (nameStr h == k)) t with
    | some y => simp
    | none =>
      simp only []
      by_cases ht : truthyH h
      · by_cases hk : nameStr h = k
        · subst hk
          simp [ht, rowGet_objSet_self]
        · simp [ht, hk, rowGet_objSet_ne _ _ _ _ hk]
      · simp [ht]

/-- The value a materialized row holds at key `k`: the column value of
the last header named `k`, if any. -/
lemma rowGet_buildRow (d : DatFile) (hs : List Header) (i : Nat) (k : String) :
    rowGet (buildRow d hs i) k =
      (findLast (fun h => truthyH h && (nameStr h == k)) hs).map (fun h => colVal h d i) := by
  unfold buildRow
  rw [rowGet_foldl]
  cases findLast (fun h => truthyH h && (nameStr h == k)) hs with
  | some y => simp
  | none => simp [rowGet]

/-- The key list of a materialized row: the truthy header names in
order, first occurrence kept. -/
lemma keys_foldl (d : DatFile) (i : Nat) (hs : List Header) :
    ∀ r : Row,
      ((hs.foldl
        (fun row h => if truthyH h then objSet row (nameStr h) (colVal h d i) else row) r).map
          Prod.fst) =
        dedupInto (r.map Prod.fst) ((hs.filter truthyH).map nameStr) := by
  induction hs with
  | nil => intro r; simp [dedupInto]
  | cons h t ih =>
    intro r
    by_cases ht : truthyH h
    · simp only [List.foldl_cons, List.filter_cons, ht, if_true, List.map_cons]
      rw [ih, objSet_keys]
      by_cases hm : nameStr h ∈ r.map Prod.fst
      · simp [dedupInto, hm]
      · simp [dedupInto, hm]
    · simp only [List.foldl_cons, List.filter_cons, ht, if_false, Bool.false_eq_true]
      rw [ih]

lemma buildRow_keys (d : DatFile) (hs : List Header) (i : Nat) :
    (buildRow d hs i).map Prod.fst = dedupInto [] ((hs.filter truthyH).map nameStr) := by
  unfold buildRow
  rw [keys_foldl]
  rfl

lemma dedupInto_of_nodup (ns : List String) :
    ∀ ks : List String, (ks ++ ns).Nodup → dedupInto ks ns = ks ++ ns := by
  induction ns with
  | nil => intro ks _; simp [dedupInto]
  | cons n t ih =>
    intro ks h
    have hdisj := List.disjoint_of_nodup_append h
    have hn : n ∉ ks := fun hmem => hdisj hmem (by simp)
    rw [dedupInto, if_neg hn]
    have he : (ks ++ [n]) ++ t = ks ++ n :: t := by simp
    rw [ih (ks ++ [n]) (by rw [he]; exact h), he]

/-! ## Lemmas: placeholder naming -/

lemma assignNamesFrom_get (hs : List Header) :
    ∀ k i, (assignNamesFrom k hs).get? i =
      (hs.get? i).map (fun h =>
        { h with
          name := some (if truthyH h then nameStr h else "Unnamed " ++ toString (k + i)) }) := by
  induction hs with
  | nil => intro k i; simp [assignNamesFrom]
  | cons h t ih =>
    intro k i
    cases i with
    | zero => simp [assignNamesFrom]
    | succ n =>
      have he : k + 1 + n = k + (n + 1) := by omega
      simp only [assignNamesFrom, List.get?_cons_succ, ih (k + 1) n, he]

lemma assignNamesFrom_length (hs : List Header) :
    ∀ k, (assignNamesFrom k hs).length = hs.length := by
  induction hs with
  | nil => intro k; rfl
  | cons h t ih => intro k; simp [assignNamesFrom, ih]

lemma truthyStr_some_nameStr (h : Header) (ht : truthyH h = true) :
    truthyStr (some (nameStr h)) = true := by
  cases hname : h.name with
  | none => rw [truthyH, hname] at ht; exact absurd ht (by decide)
  | some s =>
    rw [truthyH, hname] at ht
    simpa [nameStr, hname] using ht

lemma truthyStr_unnamed (k : Nat) :
    truthyStr (some ("Unnamed " ++ toString k)) = true := by
  show (!("Unnamed " ++ toString k).data.isEmpty) = true
  rw [String.data_append]
  have hu : ("Unnamed " : String).data = ['U', 'n', 'n', 'a', 'm', 'e', 'd', ' '] := by
    decide
  simp [hu]

lemma truthyH_assignNamesFrom (hs : List Header) :
    ∀ k h2, h2 ∈ assignNamesFrom k hs → truthyH h2 = true := by
  induction hs with
  | nil => intro k h2 hm; simp [assignNamesFrom] at hm
  | cons h t ih =>
    intro k h2 hm
    simp only [assignNamesFrom, List.mem_cons] at hm
    rcases hm with hm | hm
    · subst hm
      by_cases ht : truthyH h
      · show truthyStr (some (if truthyH h then nameStr h else "Unnamed " ++ toString k)) = true
        rw [if_pos ht]
        exact truthyStr_some_nameStr h ht
      · show truthyStr (some (if truthyH h then nameStr h else "Unnamed " ++ toString k)) = true
        rw [if_neg ht]
        exact truthyStr_unnamed k
    · exact ih (k + 1) h2 hm

/-- After placeholder naming, every header passes the truthiness check of
`extractRows`, so no header is skipped. -/
lemma assignNames_filter (hs : List Header) :
    (assignNames hs).filter truthyH = assignNames hs :=
  List.filter_eq_self.mpr (fun h2 hm => truthyH_assignNamesFrom hs 0 h2 hm)

/-! ## Lemmas: findLast -/

lemma findLast_cons_some {p : α → Bool} {x y : α} {xs : List α}
    (h : findLast p xs = some y) : findLast p (x :: xs) = some y := by
  rw [findLast, h]

lemma findLast_cons_none {p : α → Bool} {x : α} {xs : List α}
    (h : findLast p xs = none) :
    findLast p (x :: xs) = if p x then some x else none := by
  rw [findLast, h]

lemma findLast_eq_none {p : α → Bool} :
    ∀ {l : List α}, findLast p l = none ↔ ∀ x ∈ l, p x = false := by
  intro l
  induction l with
  | nil => simp [findLast]
  | cons x xs ih =>
    constructor
    · intro h
      cases hfl : findLast p xs with
      | some y => rw [findLast_cons_some hfl] at h; cases h
      | none =>
        rw [findLast_cons_none hfl] at h
        intro z hz
        rcases List.mem_cons.mp hz with hz | hz
        · subst hz
          by_cases hp : p z
          · rw [if_pos hp] at h; cases h
          · simpa using hp
        · exact ih.mp hfl z hz
    · intro hall
      have hnone : findLast p xs = none :=
        ih.mpr (fun z hz => hall z (by simp [hz]))
      rw [findLast_cons_none hnone, if_neg]
      simp [hall x (by simp)]

lemma findLast_some {p : α → Bool} :
    ∀ {l : List α} {x : α}, findLast p l = some x → x ∈ l ∧ p x = true := by
  intro l
  induction l with
  | nil => intro x h; cases h
  | cons y ys ih =>
    intro x h
    cases hfl : findLast p ys with
    | some z =>
      rw [findLast_cons_some hfl] at h
      obtain ⟨hm, hp⟩ := ih hfl
      cases h
      exact ⟨by simp [hm], hp⟩
    | none =>
      rw [findLast_cons_none hfl] at h
      by_cases hp : p y
      · rw [if_pos hp] at h
        cases h
        exact ⟨by simp, hp⟩
      · rw [if_neg hp] at h
        cases h

/-- When at most one element satisfies `p`, `findLast` is invariant
under permutation. -/
lemma findLast_perm {p : α → Bool} {l l2 : List α} (hp : l.Perm l2)
    (huniq : ∀ a ∈ l, ∀ b ∈ l, p a = true → p b = true → a = b) :
    findLast p l = findLast p l2 := by
  cases h1 : findLast p l with
  | none =>
    cases h2 : findLast p l2 with
    | none => rfl
    | some b =>
      obtain ⟨hmb, hpb⟩ := findLast_some h2
      have hfalse := (findLast_eq_none.mp h1) b (hp.mem_iff.mpr hmb)
      rw [hfalse] at hpb; cases hpb
  | some a =>
    obtain ⟨hma, hpa⟩ := findLast_some h1
    cases h2 : findLast p l2 with
    | none =>
      have hfalse := (findLast_eq_none.mp h2) a (hp.mem_iff.mp hma)
      rw [hfalse] at hpa; cases hpa
    | some b =>
      obtain ⟨hmb, hpb⟩ := findLast_some h2
      exact congrArg some (huniq a hma b (hp.mem_iff.mpr hmb) hpa hpb)

/-! ## Lemmas: JS string splitting and first-occurrence replacement -/

/-- A string containing no separator splits into the single segment that
is the whole string. -/
lemma splitCh_of_no_sep (sep : Char) :
    ∀ l : List Char, (∀ c ∈ l, c ≠ sep) → splitCh sep l = [l] := by
  intro l
  induction l with
  | nil => intro _; rfl
  | cons c rest ih =>
    intro h
    have hc : c ≠ sep := h c (by simp)
    rw [splitCh, if_neg hc, ih (fun x hx => h x (by simp [hx]))]

/-- First-occurrence replacement at a known first occurrence: when `pat`
occurs right after `a` and starts nowhere inside `a`, the replacement
rewrites exactly that occurrence. -/
lemma replaceFirstL_at (pat rep b : List Char) (hne : pat ≠ []) :
    ∀ a : List Char,
      (∀ i, i < a.length → pat.isPrefixOf (a.drop i ++ (pat ++ b)) = false) →
      replaceFirstL pat rep (a ++ (pat ++ b)) = a ++ (rep ++ b) := by
  intro a
  induction a with
  | nil =>
    intro _
    cases pat with
    | nil => exact absurd rfl hne
    | cons pc pt =>
      simp only [List.nil_append]
      rw [show (pc :: pt) ++ b = pc :: (pt ++ b) from rfl, replaceFirstL]
      have hpre : (pc :: pt).isPrefixOf (pc :: (pt ++ b)) = true := by
        rw [show pc :: (pt ++ b) = (pc :: pt) ++ b from rfl]
        exact List.isPrefixOf_iff_prefix.mpr (List.prefix_append _ _)
      rw [if_pos hpre]
      rw [show pc :: (pt ++ b) = (pc :: pt) ++ b from rfl, List.drop_left]
  | cons c a2 ih =>
    intro hfirst
    have h0 := hfirst 0 (by simp)
    rw [List.drop_zero] at h0
    have h0ne : pat.isPrefixOf (c :: (a2 ++ (pat ++ b))) = false := by
      simpa [List.cons_append] using h0
    simp only [List.cons_append]
    rw [replaceFirstL, if_neg (by rw [h0ne]; exact fun hcon => Bool.noConfusion hcon)]
    rw [ih (fun i hi => by
      have := hfirst (i + 1) (by simpa using Nat.succ_lt_succ hi)
      simpa using this)]

/-! ## Claim C1 -/

/-- Claim C1, counterexample to the statement as given: a one-row table
of stride 2 with two headers that both fit the stride but share the
declared name `X`.  Header validation succeeds and decoding returns
`rowCount` rows, yet the single row carries one entry, not
`len(headers) = 2` entries: the second assignment to the shared key
overwrote the first. -/
theorem C1_counterexample :
    fromSerializedHeaders clashHs oneRowD = some clashHs ∧
    extractRows oneRowD (assignNames clashHs) = [[("X", [7])]] ∧
    ∃ r ∈ extractRows oneRowD (assignNames clashHs), ¬ r.length = clashHs.length := by
  decide

/-- Claim C1, amended: for every dat file and header set where every
header fits within the observed stride, decoding returns exactly
`rowCount` rows (as declared by the parsed dat file), and each row
record contains one entry per distinct post-placeholder name — in
particular exactly `len(headers)` entries whenever the names are
pairwise distinct after placeholder-naming. -/
theorem C1_theorem (d : DatFile) (serial validated : List Header) (r : Row)
    (hok : fromSerializedHeaders serial d = some validated)
    (hnd : ((assignNames validated).map nameStr).Nodup)
    (hmem : r ∈ extractRows d (assignNames validated)) :
    (extractRows d (assignNames validated)).length = d.rowCount ∧
    r.length = serial.length := by
  have hvs : validated = serial := by
    unfold fromSerializedHeaders at hok
    split at hok
    · exact (Option.some.inj hok).symm
    · cases hok
  constructor
  · simp [extractRows]
  · obtain ⟨i, _, hbe⟩ := List.mem_map.mp hmem
    subst hbe
    have hkeys := buildRow_keys d (assignNames validated) i
    rw [assignNames_filter] at hkeys
    rw [dedupInto_of_nodup _ [] (by simpa using hnd), List.nil_append] at hkeys
    have hlen : (buildRow d (assignNames validated) i).length =
        (assignNames validated).length := by
      have := congrArg List.length hkeys
      simpa using this
    rw [hlen, assignNames, assignNamesFrom_length, hvs]

/-- Claim C1, witness: a two-row table with one named and one unnamed
header; decoding yields two rows of two entries each. -/
theorem C1_witness :
    (extractRows twoRowD (assignNames namedUnnamedHs)).length = twoRowD.rowCount ∧
    (buildRow twoRowD (assignNames namedUnnamedHs) 0).length = namedUnnamedHs.length :=
  C1_theorem twoRowD namedUnnamedHs namedUnnamedHs
    (buildRow twoRowD (assignNames namedUnnamedHs) 0)
    (by decide) (by decide) (by decide)

/-! ## Claim C2 -/

/-- Claim C2, counterexample to the statement as given: a header set
with exactly two unnamed headers, sitting after a named one.  The
placeholders assigned are `Unnamed 1` and `Unnamed 2` — the position in
the full header list, not a rank among the unnamed headers — so no
header at all is named `Unnamed 0`. -/
theorem C2_counterexample :
    (twoUnnamedHs.filter (fun h => !truthyH h)).length = 2 ∧
    (assignNames twoUnnamedHs).map (fun h => h.name) =
      [some "A", some "Unnamed 1", some "Unnamed 2"] ∧
    ∀ h ∈ assignNames twoUnnamedHs, ¬ h.name = some "Unnamed 0" := by
  decide

/-- Claim C2, amended: a header with no (or an empty) declared name at
position `i` of the full header list is assigned the placeholder
`Unnamed i`; the assignment is a pure function of the header list, so
repeated decodes of the same schema set produce the same names. -/
theorem C2_theorem (hs : List Header) (i : Nat) (h : Header)
    (hi : hs.get? i = some h) (hun : truthyH h = false) :
    (assignNames hs).get? i =
      some { h with name := some ("Unnamed " ++ toString i) } := by
  unfold assignNames
  rw [assignNamesFrom_get, hi]
  simp [hun]

/-- Claim C2, witness: the single unnamed header of a one-header set is
assigned `Unnamed 0`. -/
theorem C2_witness :
    (assignNames [⟨none, 3, 4⟩]).get? 0 = some ⟨some "Unnamed 0", 3, 4⟩ := by
  have h := C2_theorem [⟨none, 3, 4⟩] 0 ⟨none, 3, 4⟩ rfl rfl
  simpa using h

/-! ## Claim C3 -/

/-- Claim C3, counterexample to the statement as given: two headers
sharing the name `X` on a one-row table.  The assembled row carries a
single `X` entry holding the value of the later header — the earlier
value is overwritten, with no suffixing or other disambiguation. -/
theorem C3_counterexample :
    clashHs.length = 2 ∧
    extractRows oneRowD clashHs = [[("X", [7])]] ∧
    ∀ r ∈ extractRows oneRowD clashHs,
      r.length = 1 ∧ rowGet r "X" = some [7] ∧ ¬ rowGet r "X" = some [5] := by
  decide

/-- Claim C3, amended: colliding keys are not disambiguated; instead the
assembly is deterministic last-write-wins — each materialized row keys
one entry per distinct truthy header name (first-occurrence order), and
the value under a key is the column value of the last header bearing
that name. -/
theorem C3_theorem (d : DatFile) (hs : List Header) :
    extractRows d hs = (List.range d.rowCount).map (buildRow d hs) ∧
    ∀ i,
      (buildRow d hs i).map Prod.fst =
        dedupInto [] ((hs.filter truthyH).map nameStr) ∧
      ∀ k,
        rowGet (buildRow d hs i) k =
          (findLast (fun h => truthyH h && (nameStr h == k)) hs).map
            (fun h => colVal h d i) :=
  ⟨rfl, fun i => ⟨buildRow_keys d hs i, fun k => rowGet_buildRow d hs i k⟩⟩

/-! ## Claim C4 -/

/-- Claim C4, counterexample to the statement as given: a schema whose
header reaches past the stride (offset 8, width 4, stride 8), loaded
over a state still holding the rows of a previously decoded file.  No
typed failure is produced — the mismatch branch only logs a console
warning — and the component state keeps the previous, non-empty rows
(with `loading` left stuck at `true`). -/
theorem C4_counterexample :
    (loadFileContent mismatchEnv prevState "data/foo.dat64").rows = prevState.rows ∧
    ¬ prevState.rows = [] ∧
    (loadFileContent mismatchEnv prevState "data/foo.dat64").loading = true := by
  decide

/-- Claim C4, amended: when header matching fails, `loadFileContent`
materializes no new rows and surfaces no typed error — the `rows` and
`headers` fields keep the values from the previously decoded file, and
`loading` stays `true` (so the stale table is hidden behind the loading
indicator rather than replaced or reported). -/
theorem C4_theorem (env : Env) (s : AppState) (p : String)
    (hmis : fromSerializedHeaders (env.findByName (schemaNameOf p))
      (env.readDat (env.loadBytes p)) = none) :
    (loadFileContent env s p).rows = s.rows ∧
    (loadFileContent env s p).headers = s.headers ∧
    (loadFileContent env s p).loading = true := by
  simp [loadFileContent, loadFinish, hmis]

/-- Claim C4, witness: the mismatching schema against the initial
state. -/
theorem C4_witness :
    (loadFileContent mismatchEnv initState "data/bar.dat64").rows = initState.rows ∧
    (loadFileContent mismatchEnv initState "data/bar.dat64").headers = initState.headers ∧
    (loadFileContent mismatchEnv initState "data/bar.dat64").loading = true :=
  C4_theorem mismatchEnv initState "data/bar.dat64" (by decide)

/-! ## Claim C5 -/

/-- Claim C5, counterexample to the statement as given: the path
`metadata/foo.dat64` does not start with `data/`, so prefix stripping
would leave `metadata/foo`; the code instead removes the first
occurrence of `data/` anywhere in the path and yields `metafoo`. -/
theorem C5_counterexample :
    schemaNameOf "metadata/foo.dat64" = "metafoo" ∧
    specSchemaName "metadata/foo.dat64" = "metadata/foo" ∧
    ¬ schemaNameOf "metadata/foo.dat64" = specSchemaName "metadata/foo.dat64" := by
  decide

/-- Claim C5, amended: the schema name removes the first occurrence of
`data/` and then the first occurrence of `.dat64`, wherever they occur;
on well-formed paths `data/<base>.dat64` whose base contains no earlier
occurrence of `.dat64`, this coincides with stripping the directory
prefix from the front and the extension from the end, and the derivation
is a pure function of the path. -/
theorem C5_theorem (base : List Char)
    (hocc : ∀ i, i < base.length →
      (".dat64".data).isPrefixOf (base.drop i ++ (".dat64".data ++ [])) = false) :
    schemaNameOf (String.mk ("data/".data ++ (base ++ ".dat64".data))) = String.mk base ∧
    specSchemaName (String.mk ("data/".data ++ (base ++ ".dat64".data))) = String.mk base := by
  constructor
  · unfold schemaNameOf jsReplace
    have h1 : replaceFirstL ("data/".data) ("".data)
        (("data/".data) ++ (base ++ ".dat64".data)) = base ++ ".dat64".data := by
      have := replaceFirstL_at ("data/".data) ("".data) (base ++ ".dat64".data)
        (by decide) [] (fun i hi => absurd hi (by simp))
      simpa using this
    have h2 : replaceFirstL (".dat64".data) ("".data) (base ++ ".dat64".data) = base := by
      have := replaceFirstL_at (".dat64".data) ("".data) [] (by decide) base hocc
      simpa using this
    show String.mk (replaceFirstL (".dat64".data) ("".data)
      (replaceFirstL ("data/".data) ("".data)
        (String.mk (("data/".data) ++ (base ++ ".dat64".data))).data)) = String.mk base
    rw [show (String.mk (("data/".data) ++ (base ++ ".dat64".data))).data =
      ("data/".data) ++ (base ++ ".dat64".data) from rfl]
    rw [h1, h2]
  · unfold specSchemaName
    have hp : ("data/".data).isPrefixOf
        (("data/".data) ++ (base ++ ".dat64".data)) = true :=
      List.isPrefixOf_iff_prefix.mpr (List.prefix_append _ _)
    have hs : (".dat64".data).isSuffixOf (base ++ ".dat64".data) = true :=
      List.isSuffixOf_iff_suffix.mpr (List.suffix_append _ _)
    simp only [show (String.mk (("data/".data) ++ (base ++ ".dat64".data))).data =
      ("data/".data) ++ (base ++ ".dat64".data) from rfl, hp, if_true, List.drop_left,
      hs]
    rw [show (base ++ ".dat64".data).length - (".dat64".data).length = base.length by
      simp [List.length_append]]
    rw [List.take_left]

/-- Claim C5, witness: the well-formed path `data/foo.dat64` derives the
schema name `foo` by both the code and the wording of the spec. -/
theorem C5_witness :
    schemaNameOf (String.mk ("data/".data ++ ("foo".data ++ ".dat64".data))) =
      String.mk ("foo".data) ∧
    specSchemaName (String.mk ("data/".data ++ ("foo".data ++ ".dat64".data))) =
      String.mk ("foo".data) :=
  C5_theorem ("foo".data) (by decide)

/-! ## Claim C6 -/

/-- Claim C6: decoding is deterministic — two runs of `extractRows` over
identical bytes (row count, stride, fixed-data section) and identical
headers produce identical row records.  In this embedding the decode
pipeline is a pure function of those inputs, which is faithful to the
source: `extractRows` reads only immutable inputs and appends to a local
array. -/
theorem C6_theorem (d1 d2 : DatFile) (hs1 hs2 : List Header)
    (hc : d1.rowCount = d2.rowCount) (hl : d1.rowLength = d2.rowLength)
    (hb : d1.dataFixed = d2.dataFixed) (hh : hs1 = hs2) :
    extractRows d1 hs1 = extractRows d2 hs2 := by
  cases d1
  cases d2
  simp_all

/-- Claim C6, witness: two identical concrete runs. -/
theorem C6_witness : extractRows oneRowD abHs = extractRows oneRowD abHs :=
  C6_theorem oneRowD oneRowD abHs abHs rfl rfl rfl rfl

/-! ## Claim C7 -/

/-- Claim C7, counterexample to the statement as given: an unnamed
header next to a named one.  Placeholder names depend on position, so
permuting the headers renames the unnamed column from `Unnamed 0` to
`Unnamed 1`, and the name-to-value mappings of the materialized rows
differ at the key `Unnamed 0` even order-insensitively. -/
theorem C7_counterexample :
    unnamedLastHs.Perm unnamedFirstHs ∧
    (extractRows oneRowD (assignNames unnamedFirstHs)).map
      (fun r => rowGet r "Unnamed 0") = [some [5]] ∧
    (extractRows oneRowD (assignNames unnamedLastHs)).map
      (fun r => rowGet r "Unnamed 0") = [none] := by
  decide

/-- Claim C7, amended: for header sets whose truthy names are pairwise
distinct, materializing the rows under any permutation of the headers
gives rows with the same name-to-value mapping (placeholder naming,
being positional, must already have happened — permuting before naming
changes the keys). -/
theorem C7_theorem (d : DatFile) (hs hs2 : List Header) (hp : hs.Perm hs2)
    (hnd : ((hs.filter truthyH).map nameStr).Nodup) (k : String) :
    (extractRows d hs).map (fun r => rowGet r k) =
      (extractRows d hs2).map (fun r => rowGet r k) := by
  have hfl : findLast (fun h => truthyH h && (nameStr h == k)) hs =
      findLast (fun h => truthyH h && (nameStr h == k)) hs2 := by
    apply findLast_perm hp
    intro a ha b hb hpa hpb
    rw [Bool.and_eq_true] at hpa hpb
    obtain ⟨hta, hna⟩ := hpa
    obtain ⟨htb, hnb⟩ := hpb
    apply List.inj_on_of_nodup_map hnd
    · exact List.mem_filter.mpr ⟨ha, hta⟩
    · exact List.mem_filter.mpr ⟨hb, htb⟩
    · rw [eq_of_beq hna, eq_of_beq hnb]
  have hkey : ∀ i, rowGet (buildRow d hs i) k = rowGet (buildRow d hs2 i) k := by
    intro i
    rw [rowGet_buildRow, rowGet_buildRow, hfl]
  unfold extractRows
  rw [List.map_map, List.map_map]
  congr 1
  funext i
  exact hkey i

/-- Claim C7, witness: two distinctly named headers in both orders give
rows agreeing at the key `A`. -/
theorem C7_witness :
    (extractRows oneRowD abHs).map (fun r => rowGet r "A") =
      (extractRows oneRowD baHs).map (fun r => rowGet r "A") :=
  C7_theorem oneRowD abHs baHs (by decide) (by decide) "A"

/-! ## Claim C8 -/

/-- Claim C8, counterexample to the statement as given: request `a`
starts, request `b` starts (superseding `a`), `b` finishes, then `a`
finishes.  There is no cancellation or generation guard, so the
abandoned request `a` still assigns its rows after `b` has both started
and delivered — the displayed rows end up being those of `a`, not of the
newer request `b`. -/
theorem C8_counterexample :
    (runEvents racyEnv initState
      [Event.start "data/a.dat64", Event.start "data/b.dat64",
        Event.finish "data/b.dat64", Event.finish "data/a.dat64"]).rows =
      [[("A", [1])]] ∧
    (runEvents racyEnv initState
      [Event.start "data/b.dat64", Event.finish "data/b.dat64"]).rows =
      [[("A", [2])]] ∧
    ¬ ([[("A", [1])]] : List Row) = [[("A", [2])]] := by
  decide

/-- Claim C8, amended: completions overwrite state unconditionally, so
the displayed rows after any execution are those of the last request to
finish (when its headers validate), regardless of which request started
last. -/
theorem C8_theorem (env : Env) (s : AppState) (es : List Event) (p : String)
    (validated : List Header)
    (hok : fromSerializedHeaders (env.findByName (schemaNameOf p))
      (env.readDat (env.loadBytes p)) = some validated) :
    (runEvents env s (es ++ [Event.finish p])).rows =
      extractRows (env.readDat (env.loadBytes p)) (assignNames validated) := by
  unfold runEvents
  rw [List.foldl_append]
  simp [applyEvent, loadFinish, hok]

/-- Claim C8, witness: a single non-overlapping request delivers its own
rows. -/
theorem C8_witness :
    (runEvents okEnv initState
      ([Event.start "data/c.dat64"] ++ [Event.finish "data/c.dat64"])).rows =
      extractRows (okEnv.readDat (okEnv.loadBytes "data/c.dat64"))
        (assignNames [⟨some "A", 0, 1⟩]) :=
  C8_theorem okEnv initState [Event.start "data/c.dat64"] "data/c.dat64"
    [⟨some "A", 0, 1⟩] (by decide)

/-! ## Claim C9 -/

/-- Claim C9: after loading a directory, the presented file list
contains exactly the files of the index listing whose path ends in
`.dat64`, and the subdirectory list is passed through unchanged. -/
theorem C9_theorem (g : String → Option DirContents) (s : AppState)
    (dirPath : String) (c : DirContents) (f : String) (hg : g dirPath = some c) :
    (loadDirContents g s dirPath).dirContents.dirs = c.dirs ∧
    (f ∈ (loadDirContents g s dirPath).dirContents.files ↔
      f ∈ c.files ∧ jsEndsWith f ".dat64" = true) := by
  constructor
  · simp [loadDirContents, hg]
  · simp [loadDirContents, hg, List.mem_filter]

/-- Claim C9, witness: the toy index at `top` keeps `top/a.dat64` and
its subdirectory list. -/
theorem C9_witness :
    (loadDirContents toyIndex initState "top").dirContents.dirs = ["top/sub"] ∧
    ("top/a.dat64" ∈ (loadDirContents toyIndex initState "top").dirContents.files ↔
      "top/a.dat64" ∈ ["top/a.dat64", "top/b.txt"] ∧
        jsEndsWith "top/a.dat64" ".dat64" = true) :=
  C9_theorem toyIndex initState "top" ⟨["top/a.dat64", "top/b.txt"], ["top/sub"]⟩
    "top/a.dat64" (by decide)

/-! ## Claim C10 -/

lemma string_eq_empty_of_data_nil {t : String} (h : t.data = []) : t = "" := by
  cases t
  simp_all

/-- Claim C10: going up from a top-level directory (current path without
a separator) loads the root directory, and going up at the root (empty
current path) changes nothing. -/
theorem C10_theorem (g : String → Option DirContents) (s : AppState) :
    (s.currentPath = "" → goUp g s = s) ∧
    (¬ s.currentPath = "" → (∀ c ∈ s.currentPath.data, ¬ c = '/') →
      goUp g s = loadDirContents g s "") := by
  constructor
  · intro h
    have hd : s.currentPath.data.isEmpty = true := by rw [h]; rfl
    simp [goUp, hd]
  · intro h hns
    have hne : s.currentPath.data.isEmpty = false := by
      cases hl : s.currentPath.data with
      | nil => exact absurd (string_eq_empty_of_data_nil hl) h
      | cons a as => rfl
    unfold goUp
    rw [if_neg (by simp [hne])]
    rw [splitCh_of_no_sep '/' s.currentPath.data (fun c hc => hns c hc)]
    have hroot : String.mk (joinCh '/' (List.dropLast [s.currentPath.data])) = "" := by
      show String.mk (joinCh '/' []) = ""
      decide
    show loadDirContents g s
      (String.mk (joinCh '/' (List.dropLast [s.currentPath.data]))) = loadDirContents g s ""
    rw [hroot]

/-- Claim C10, witness: going up at the root leaves the state unchanged,
and going up from `top` loads the root listing. -/
theorem C10_witness :
    goUp toyIndex rootState = rootState ∧
    goUp toyIndex topState = loadDirContents toyIndex topState "" :=
  ⟨(C10_theorem toyIndex rootState).1 rfl,
    (C10_theorem toyIndex topState).2 (by decide) (by decide)⟩

end PoeRevelation
